import Mathlib

/-!
Verification of the record-persistence adapter in pipeline_async (model.py and
model/passthrough.py), as a shallow embedding in Lean 4.

The Python dataclass reflection is embedded as explicit record-type and
record-instance data; SQLAlchemy state (metadata plus the SQLite engine) is
embedded as an explicit state value that every operation threads.  The
recursive operations take an explicit fuel argument so that every definition
is structurally recursive and kernel-computable; fuel exhaustion yields
Option.none, and every theorem about a recursive operation is conditioned on
the operation returning Option.some, so nothing is ever proved from a
fuel-exhausted run.
-/

namespace Pipeline

mutual
/-- Declared semantic type of a dataclass field: the scalar types of
SqlModel.TYPE_TO_SQLTYPE, enumerations, nested dataclasses, and a constructor
for any other Python type (one that matches none of the mapping rules of
SqlModel._create_column). -/
inductive Ty where
  | tInt
  | tFloat
  | tStr
  | tBytes
  | tDatetime
  | tDate
  | tBool
  | tEnum (ename : String)
  | tRecord (rt : RecordType)
  | tUnsupported (tname : String)

inductive FieldSpec where
  | mk (name : String) (ty : Ty) (isKey : Bool) (defaultNone : Bool)

inductive RecordType where
  | mk (name : String) (fields : List FieldSpec)
end

def FieldSpec.name : FieldSpec → String
  | .mk n _ _ _ => n

def FieldSpec.ty : FieldSpec → Ty
  | .mk _ t _ _ => t

def FieldSpec.isKey : FieldSpec → Bool
  | .mk _ _ k _ => k

def FieldSpec.defaultNone : FieldSpec → Bool
  | .mk _ _ _ d => d

def RecordType.name : RecordType → String
  | .mk n _ => n

def RecordType.fields : RecordType → List FieldSpec
  | .mk _ fs => fs

mutual
/-- Runtime Python values.  vnone is the Python None value, which SQLAlchemy
turns into the SQL NULL; vrec is a nested dataclass instance. -/
inductive PyValue where
  | vint (n : Int)
  | vfloat (q : Rat)
  | vstr (s : String)
  | vbytes (bs : List Nat)
  | vdatetime (year month day hour minute second : Nat)
  | vdate (year month day : Nat)
  | vbool (b : Bool)
  | venum (ename member : String)
  | vnone
  | vrec (i : PyInst)

/-- Dataclass instances.  An instance carries its record type, its field
values in declaration order (Python getattr by field name coincides with this
positional view because dataclass field names are unique), and the optional
memoized row identifier that SqlModel stores on the instance as the dynamic
attribute _rowid. -/
inductive PyInst where
  | mk (rt : RecordType) (values : List PyValue) (rowid : Option Int)
end

def PyInst.rt : PyInst → RecordType
  | .mk r _ _ => r

def PyInst.values : PyInst → List PyValue
  | .mk _ vs _ => vs

def PyInst.rowid : PyInst → Option Int
  | .mk _ _ r => r

/-- Modelled from the spec: datautil.iskeyfield is imported by model.py but
datautil is not part of the sources at hand.  Per the glossary a key field is
"a field whose values participate in determining whether two record instances
denote the same logical entity", i.e. the field carries the key flag. -/
def iskeyfield (f : FieldSpec) : Bool :=
  f.isKey

/-- Modelled from the spec: datautil.keyfields is imported by model.py but
datautil is not part of the sources at hand.  It selects the key fields of a
dataclass, in declaration order. -/
def keyfields (fs : List FieldSpec) : List FieldSpec :=
  fs.filter iskeyfield

/-- Insert a space between a lower-case letter and an upper-case letter that
immediately follows it. -/
def camelSplit : List Char → List Char
  | [] => []
  | [c] => [c]
  | a :: b :: rest =>
    if a.isLower && b.isUpper then a :: ' ' :: camelSplit (b :: rest)
    else a :: camelSplit (b :: rest)

/-- Modelled from the spec: util.camelcase_to_words is imported by model.py
but util is not part of the sources at hand.  Per the Naming Strategy it
converts an identifier-style mixed-case compound name into its words, i.e. it
inserts a word break at each lower-to-upper case boundary. -/
def camelcase_to_words (s : String) : String :=
  String.mk (camelSplit s.toList)

/-- Python str.lower() restricted to the ASCII identifiers at hand.  (The
core String.toLower is not used because its implementation does not reduce
inside the kernel.) -/
def lowerString (s : String) : String :=
  String.mk (s.toList.map Char.toLower)

/-- Python str.split(): split on whitespace runs, no empty words.  The first
accumulator argument collects the current word in reverse. -/
def splitSpacesAux : List Char → List Char → List (List Char)
  | acc, [] => if acc.isEmpty then [] else [acc.reverse]
  | acc, c :: rest =>
    if c = ' ' then
      if acc.isEmpty then splitSpacesAux [] rest
      else acc.reverse :: splitSpacesAux [] rest
    else splitSpacesAux (c :: acc) rest

def splitSpaces (cs : List Char) : List (List Char) :=
  splitSpacesAux [] cs

/-- str.join: interleave the separator character between the words. -/
def joinChar (sep : Char) : List (List Char) → List Char
  | [] => []
  | [w] => w
  | w :: ws => w ++ sep :: joinChar sep ws

/-- _DatabaseModel._get_table_name on a type name: the source lowercases the
name FIRST and only then applies camelcase_to_words, then splits into words
and joins them with an underscore. -/
def tableNameStr (pyname : String) : String :=
  String.mk (joinChar '_' (splitSpaces ((camelcase_to_words (lowerString pyname)).toList)))

/-- _DatabaseModel._get_table_name for a record type. -/
def tableName (rt : RecordType) : String :=
  tableNameStr rt.name

/-- The Naming Strategy as the spec words it (section 4.1): the identifier is
split into its constituent words, the words are lowercased, and joined with a
separator.  This follows the words of the spec, for comparison with the
source-derived tableNameStr. -/
def specCanonicalName (pyname : String) : String :=
  String.mk (joinChar '_' ((splitSpaces ((camelcase_to_words pyname).toList)).map (List.map Char.toLower)))

/-- Storage type of a SQL column, mirroring the sqlalchemy types used by
SqlModel: the TYPE_TO_SQLTYPE scalars, Enum, String with the NOCASE
collation for text key fields, and a foreign-key column referencing the id
column of the target table. -/
inductive SqlColType where
  | integer
  | float
  | stringT (nocase : Bool)
  | largeBinary
  | dateTimeCol
  | dateCol
  | boolean
  | enumCol (ename : String)
  | foreign (target : String)

def SqlColType.isNocase : SqlColType → Bool
  | .stringT true => true
  | _ => false

structure SqlColumn where
  name : String
  ctype : SqlColType
  nullable : Bool

/-- The generated primary identifier column (Column "id", Integer,
primary_key=True); SQLite assigns ids 1, 2, ... in insertion order. -/
def idColumn : SqlColumn :=
  ⟨"id", SqlColType.integer, false⟩

/-- A stored row: its primary identifier and its cells by column name.  A
column name absent from the cells denotes the SQL NULL, as does an explicit
vnone cell. -/
structure SqlRow where
  id : Int
  cells : List (String × PyValue)

/-- A table of the reflected sqlalchemy metadata together with its engine
content: its rows in insertion order and the next primary identifier the
engine will assign. -/
structure SqlTable where
  name : String
  columns : List SqlColumn
  rows : List SqlRow
  nextId : Int

/-- The state of a SqlModel: the cached metadata tables (kept in sync with
the engine by metadata.reflect at construction and metadata.create_all on
creation), plus a counter of backend round trips (SELECT, INSERT, CREATE
TABLE) used to make "no backend access" provable. -/
structure SqlState where
  tables : List SqlTable
  queryCount : Nat

def sqlEmpty : SqlState :=
  ⟨[], 0⟩

/-- metadata.tables.get(table_name): table names are unique, first match. -/
def findTable (s : SqlState) (n : String) : Option SqlTable :=
  s.tables.find? (fun t => t.name == n)

/-- Replace the table named n by t in the table list. -/
def setTable : List SqlTable → String → SqlTable → List SqlTable
  | [], _, _ => []
  | t0 :: ts, n, t => if t0.name == n then t :: ts else t0 :: setTable ts n t

/-- Cell access of a stored row; an absent cell is the SQL NULL. -/
def rowGet (r : SqlRow) (c : String) : PyValue :=
  match r.cells.find? (fun p => p.1 == c) with
  | some p => p.2
  | none => PyValue.vnone

/-- Rows of the table named n, for stating where inserted rows end up. -/
def tableRows (s : SqlState) (n : String) : List SqlRow :=
  match findTable s n with
  | some t => t.rows
  | none => []

/-- SqlModel.TYPE_TO_SQLTYPE.get(field.type): the fixed scalar table.  Enum
and dataclass types are handled by earlier branches of _create_column and the
dict holds no entry for them; any other type yields Option.none. -/
def typeToSqlType : Ty → Option SqlColType
  | Ty.tInt => some SqlColType.integer
  | Ty.tFloat => some SqlColType.float
  | Ty.tStr => some (SqlColType.stringT false)
  | Ty.tBytes => some SqlColType.largeBinary
  | Ty.tDatetime => some SqlColType.dateTimeCol
  | Ty.tDate => some SqlColType.dateCol
  | Ty.tBool => some SqlColType.boolean
  | _ => none

def Ty.isStr : Ty → Bool
  | Ty.tStr => true
  | _ => false

/-- SqlModel._create_column, with the recursive _require_table call for
nested dataclass fields abstracted as the argument require (instantiated at
each fuel level by requireTableF).  Branch order follows the source:
dataclass, then Enum, then text key field (NOCASE collation), then the
TYPE_TO_SQLTYPE lookup; a failed lookup raises
ValueError("Cannot convert ... to SQL column").  The nullable flag is
field.default is None; a foreign-key column gets sqlalchemy defaults
(nullable). -/
def createColumnAux (require : SqlState → RecordType → Option (SqlState × Except String SqlTable))
    (s : SqlState) (f : FieldSpec) : Option (SqlState × Except String SqlColumn) :=
  match f.ty with
  | Ty.tRecord sub =>
    match require s sub with
    | none => none
    | some (s1, Except.error e) => some (s1, Except.error e)
    | some (s1, Except.ok subtable) =>
      some (s1, Except.ok ⟨f.name ++ "_id", SqlColType.foreign subtable.name, true⟩)
  | ty =>
    let columnType : Option SqlColType :=
      match ty with
      | Ty.tEnum en => some (SqlColType.enumCol en)
      | _ =>
        if ty.isStr && iskeyfield f then some (SqlColType.stringT true)
        else typeToSqlType ty
    match columnType with
    | none => some (s, Except.error ("Cannot convert " ++ f.name ++ " to SQL column"))
    | some ct => some (s, Except.ok ⟨f.name, ct, f.defaultNone⟩)

/-- The column loop of SqlModel._create_table: one column per declared field,
in declaration order; a ValueError raised for one field aborts the loop and
propagates, keeping the state mutations already performed by earlier nested
_require_table calls. -/
def createColumnsAux (require : SqlState → RecordType → Option (SqlState × Except String SqlTable)) :
    SqlState → List FieldSpec → Option (SqlState × Except String (List SqlColumn))
  | s, [] => some (s, Except.ok [])
  | s, f :: fs =>
    match createColumnAux require s f with
    | none => none
    | some (s1, Except.error e) => some (s1, Except.error e)
    | some (s1, Except.ok col) =>
      match createColumnsAux require s1 fs with
      | none => none
      | some (s2, Except.error e) => some (s2, Except.error e)
      | some (s2, Except.ok cols) => some (s2, Except.ok (col :: cols))

/-- SqlModel._create_table: an id primary-key column plus one column per
declared field; the sqlalchemy Table is registered in the metadata and
created in the engine (one backend round trip) only after every column was
built, so a failing column leaves the table absent.  Constructing a
sqlalchemy Table under a name the metadata already holds raises
(InvalidRequestError, "Table ... is already defined"), which can only happen
when a nested field re-creates the very name being created (a cyclic or
name-colliding type, outside the spec invariants). -/
def createTableAux (require : SqlState → RecordType → Option (SqlState × Except String SqlTable))
    (s : SqlState) (tname : String) (rt : RecordType) : Option (SqlState × Except String SqlTable) :=
  match createColumnsAux require s rt.fields with
  | none => none
  | some (s1, Except.error e) => some (s1, Except.error e)
  | some (s1, Except.ok cols) =>
    match findTable s1 tname with
    | some _ => some (s1, Except.error ("Table " ++ tname ++ " is already defined"))
    | none =>
      let t : SqlTable := ⟨tname, idColumn :: cols, [], 1⟩
      some (⟨s1.tables ++ [t], s1.queryCount + 1⟩, Except.ok t)

/-- SqlModel._require_table: return the cached table, else create it (and,
recursively, the tables of nested dataclass fields).  The fuel only bounds
the nesting depth of record types; it is irrelevant for acyclic types given
enough of it. -/
def requireTableF : Nat → SqlState → RecordType → Option (SqlState × Except String SqlTable)
  | 0, _, _ => none
  | fuel + 1, s, rt =>
    match findTable s (tableName rt) with
    | some t => some (s, Except.ok t)
    | none => createTableAux (requireTableF fuel) s (tableName rt) rt

/-- SqlModel.get_table: a read-only lookup of the cached metadata.  It takes
no state out because the source performs no mutation: it either returns the
cached table or raises ValueError("No table named: ...") without creating
anything. -/
def getTable (s : SqlState) (rt : RecordType) : Except String SqlTable :=
  match findTable s (tableName rt) with
  | some t => Except.ok t
  | none => Except.error ("No table named: " ++ tableName rt)

/-- Structural equality of Python scalar values as SQL equality sees them.
Values of distinct runtime types never compare equal here (the claims only
ever compare values of identical scalar types); a dataclass value never
validly occurs in a stored cell or predicate, and compares unequal. -/
def valueBeq : PyValue → PyValue → Bool
  | PyValue.vint a, PyValue.vint b => a == b
  | PyValue.vfloat a, PyValue.vfloat b => a == b
  | PyValue.vstr a, PyValue.vstr b => a == b
  | PyValue.vbytes a, PyValue.vbytes b => a == b
  | PyValue.vdatetime a b c d e f, PyValue.vdatetime a2 b2 c2 d2 e2 f2 =>
    a == a2 && b == b2 && c == c2 && d == d2 && e == e2 && f == f2
  | PyValue.vdate a b c, PyValue.vdate a2 b2 c2 => a == a2 && b == b2 && c == c2
  | PyValue.vbool a, PyValue.vbool b => a == b
  | PyValue.venum a b, PyValue.venum a2 b2 => a == a2 && b == b2
  | PyValue.vnone, PyValue.vnone => true
  | _, _ => false

def PyValue.isNone : PyValue → Bool
  | PyValue.vnone => true
  | _ => false

/-- dataclasses.is_dataclass(value), the runtime test on a value, returning
the nested instance when the value is one. -/
def asRec : PyValue → Option PyInst
  | PyValue.vrec i => some i
  | _ => none

/-- Equality of a stored cell against a predicate value, honouring the NOCASE
collation of text key columns (case-insensitive comparison). -/
def sqlValueEq (nocase : Bool) (cell v : PyValue) : Bool :=
  match nocase, cell, v with
  | true, PyValue.vstr a, PyValue.vstr b => lowerString a == lowerString b
  | _, _, _ => valueBeq cell v

/-- One equality predicate of the lookup statement: a column name and the
Python value sqlalchemy compares it with (table.c[name] == value).  A vnone
value is compiled by sqlalchemy to IS NULL, not to an ordinary equality. -/
def SqlClause : Type :=
  String × PyValue

/-- Whether a stored row satisfies one predicate: IS NULL for a None value,
otherwise SQL equality (NULL cells satisfy no ordinary equality). -/
def evalClause (tbl : SqlTable) (row : SqlRow) (c : SqlClause) : Bool :=
  let cell := rowGet row c.1
  if c.2.isNone then cell.isNone
  else
    let nocase :=
      match tbl.columns.find? (fun col => col.name == c.1) with
      | some col => col.ctype.isNocase
      | none => false
    !cell.isNone && sqlValueEq nocase cell c.2

/-- The resolved nested identifier as sqlalchemy receives it: the Python int,
or None when the nested resolution came back empty. -/
def ridToValue : Option Int → PyValue
  | some n => PyValue.vint n
  | none => PyValue.vnone

/-- The key-field loop of SqlModel._get_rowid, walking the declared fields
and their values in lockstep (Python iterates keyfields(data) and reads each
value with getattr; field names of a dataclass are unique, so the positional
walk is the same thing).  Non-key fields contribute no predicate and are left
untouched.  For a key field declared as a nested dataclass the source
recursively resolves the value first — the recursion is the argument resolve,
instantiated at each fuel level by getRowidF — and compares the foreign-key
column against the result, which is None (IS NULL) when the nested
resolution failed; it does NOT short-circuit.  A value that is not actually a
dataclass instance resolves to None (in Python _get_rowid falls through its
table lookup for such a value because no table is named after a scalar
type). -/
def buildClausesAux (resolve : SqlState → PyInst → Option (SqlState × PyInst × Option Int)) :
    SqlState → List FieldSpec → List PyValue →
    Option (SqlState × List PyValue × List SqlClause)
  | s, [], vs => some (s, vs, [])
  | s, _ :: _, [] => some (s, [], [])
  | s, f :: fs, v :: vs =>
    if iskeyfield f then
      match f.ty with
      | Ty.tRecord _ =>
        let step : Option (SqlState × PyValue × Option Int) :=
          match asRec v with
          | some sub =>
            match resolve s sub with
            | none => none
            | some (s1, sub1, rid) => some (s1, PyValue.vrec sub1, rid)
          | none => some (s, v, none)
        match step with
        | none => none
        | some (s1, v1, rid) =>
          match buildClausesAux resolve s1 fs vs with
          | none => none
          | some (s2, vs2, cs) => some (s2, v1 :: vs2, (f.name ++ "_id", ridToValue rid) :: cs)
      | _ =>
        match buildClausesAux resolve s fs vs with
        | none => none
        | some (s2, vs2, cs) => some (s2, v :: vs2, (f.name, v) :: cs)
    else
      match buildClausesAux resolve s fs vs with
      | none => none
      | some (s2, vs2, cs) => some (s2, v :: vs2, cs)

/-- SqlModel._get_rowid.  Returns the possibly-updated state, the
possibly-updated instance (nested instances touched by the key-field loop may
have been memoized, and the instance itself is memoized on a successful
lookup), and the resolved identifier (none when absent).  Path order follows
the source: memoized attribute first; absent table means absent; the
predicates are built (with their nested resolutions) before the empty check;
an executed SELECT is one backend round trip; scalar() takes the first
matching row, and a falsy row id (0) is treated as not found and not
memoized. -/
def getRowidF : Nat → SqlState → PyInst → Option (SqlState × PyInst × Option Int)
  | 0, _, _ => none
  | fuel + 1, s, i =>
    match i.rowid with
    | some r => some (s, i, some r)
    | none =>
      match findTable s (tableName i.rt) with
      | none => some (s, i, none)
      | some tbl =>
        match buildClausesAux (getRowidF fuel) s i.rt.fields i.values with
        | none => none
        | some (s1, vs1, clauses) =>
          if clauses.isEmpty then some (s1, PyInst.mk i.rt vs1 none, none)
          else
            let s2 : SqlState := ⟨s1.tables, s1.queryCount + 1⟩
            match tbl.rows.find? (fun row => clauses.all (fun c => evalClause tbl row c)) with
            | none => some (s2, PyInst.mk i.rt vs1 none, none)
            | some row =>
              if row.id == 0 then some (s2, PyInst.mk i.rt vs1 none, none)
              else some (s2, PyInst.mk i.rt vs1 (some row.id), some row.id)

/-- SqlModel.exists, reduced to its boolean: _get_rowid(data) is not None. -/
def existsBoolF (fuel : Nat) (s : SqlState) (i : PyInst) : Option Bool :=
  (getRowidF fuel s i).map (fun r => r.2.2.isSome)

/-- The INSERT a successful add performs: sqlalchemy rejects row keys that
name no column of the table ("Unconsumed column names"); otherwise the engine
assigns the next primary identifier.  One backend round trip. -/
def insertRow (s : SqlState) (tname : String) (row : List (String × PyValue)) :
    SqlState × Except String Int :=
  match findTable s tname with
  | none => (s, Except.error ("No table named: " ++ tname))
  | some t =>
    if row.all (fun cell => t.columns.any (fun col => col.name == cell.1)) then
      let t2 : SqlTable := ⟨t.name, t.columns, t.rows ++ [⟨t.nextId, row⟩], t.nextId + 1⟩
      (⟨setTable s.tables tname t2, s.queryCount + 1⟩, Except.ok t.nextId)
    else
      (s, Except.error ("Unconsumed column names for table " ++ tname))

/-- The row-building loop of SqlModel.add, walking declared fields and values
in lockstep.  The branch tests the runtime value (dataclasses.is_dataclass of
the value, not of the declared type): a nested instance is recursively added
— the recursion is the argument addRec, instantiated at the next lower fuel
by addF — with the same check_exists policy, and the returned identifier is
stored under the foreign-key column name; any other value is stored raw under
the field name.  A failure of a nested add aborts the loop and propagates,
keeping the nested records already inserted. -/
def buildRowAux (addRec : SqlState → PyInst → Bool → Option (SqlState × PyInst × Except String Int)) :
    SqlState → List FieldSpec → List PyValue → Bool →
    Option (SqlState × List PyValue × Except String (List (String × PyValue)))
  | s, [], vs, _ => some (s, vs, Except.ok [])
  | s, _ :: _, [], _ => some (s, [], Except.ok [])
  | s, f :: fs, v :: vs, ce =>
    match asRec v with
    | some sub =>
      match addRec s sub ce with
      | none => none
      | some (s1, sub1, Except.error e) => some (s1, PyValue.vrec sub1 :: vs, Except.error e)
      | some (s1, sub1, Except.ok rid) =>
        match buildRowAux addRec s1 fs vs ce with
        | none => none
        | some (s2, vs2, Except.error e) => some (s2, PyValue.vrec sub1 :: vs2, Except.error e)
        | some (s2, vs2, Except.ok row) =>
          some (s2, PyValue.vrec sub1 :: vs2, Except.ok ((f.name ++ "_id", PyValue.vint rid) :: row))
    | none =>
      match buildRowAux addRec s fs vs ce with
      | none => none
      | some (s2, vs2, Except.error e) => some (s2, v :: vs2, Except.error e)
      | some (s2, vs2, Except.ok row) => some (s2, v :: vs2, Except.ok ((f.name, v) :: row))

/-- SqlModel.add.  Path order follows the source: a memoized identifier is
returned immediately with no backend access; with check_exists the resolver
runs and a hit is returned; otherwise the outgoing row is assembled (with the
recursive adds of nested instances), the table is required (created on first
use), and a single INSERT is executed, whose assigned identifier is memoized
on the instance and returned. -/
def addF : Nat → SqlState → PyInst → Bool → Option (SqlState × PyInst × Except String Int)
  | 0, _, _, _ => none
  | fuel + 1, s, i, ce =>
    match i.rowid with
    | some r => some (s, i, Except.ok r)
    | none =>
      match (if ce then getRowidF (fuel + 1) s i else some (s, i, none)) with
      | none => none
      | some (s1, i1, some r) => some (s1, i1, Except.ok r)
      | some (s1, i1, none) =>
        match buildRowAux (addF fuel) s1 i1.rt.fields i1.values ce with
        | none => none
        | some (s2, vs2, Except.error e) => some (s2, PyInst.mk i1.rt vs2 none, Except.error e)
        | some (s2, vs2, Except.ok row) =>
          match requireTableF (fuel + 1) s2 i1.rt with
          | none => none
          | some (s3, Except.error e) => some (s3, PyInst.mk i1.rt vs2 none, Except.error e)
          | some (s3, Except.ok tbl) =>
            match insertRow s3 tbl.name row with
            | (s4, Except.error e) => some (s4, PyInst.mk i1.rt vs2 none, Except.error e)
            | (s4, Except.ok rid) => some (s4, PyInst.mk i1.rt vs2 (some rid), Except.ok rid)

def Ty.isEnumTy : Ty → Bool
  | Ty.tEnum _ => true
  | _ => false

/-- Python issubclass(t, datetime.date): true for datetime.date and also for
datetime.datetime, because datetime.datetime is a subclass of
datetime.date. -/
def Ty.isSubclassOfDate : Ty → Bool
  | Ty.tDate => true
  | Ty.tDatetime => true
  | _ => false

/-- value.name of an enum member.  On a value that is not an enum member the
Python attribute access would fail; the data-model invariant (a field value
matches its declared type) keeps that unreachable, and the embedding returns
the value unchanged there. -/
def enumMemberName : PyValue → PyValue
  | PyValue.venum _ m => PyValue.vstr m
  | v => v

/-- datetime.datetime(value.year, value.month, value.day): only the date
components survive.  On a value with no year attribute the Python call would
fail; the data-model invariant keeps that unreachable and the embedding
returns the value unchanged there. -/
def dateOnlyDatetime : PyValue → PyValue
  | PyValue.vdatetime y m d _ _ _ => PyValue.vdatetime y m d 0 0 0
  | PyValue.vdate y m d => PyValue.vdatetime y m d 0 0 0
  | v => v

/-- MongoModel._convert_value: enum members are stored by symbolic name;
any field whose declared type is a subclass of datetime.date — which includes
datetime.datetime — is normalized to a datetime built from year, month and
day only; everything else is stored raw. -/
def mongoConvertValue (f : FieldSpec) (v : PyValue) : PyValue :=
  if f.ty.isEnumTy then enumMemberName v
  else if f.ty.isSubclassOfDate then dateOnlyDatetime v
  else v

/-- PassThroughModel of model.py: exists(self, data, check_exists=True). -/
def passThroughExistsM (data : PyInst) (checkExists : Bool) : Bool :=
  false

/-- PassThroughModel of model.py: add(self, data) — note the signature takes
no check_exists argument; it returns the empty list. -/
def passThroughAddM (data : PyInst) : List Int :=
  []

/-- PassThroughModel of model/passthrough.py: exists(self, data). -/
def passThroughExistsP (data : PyInst) : Bool :=
  false

/-- PassThroughModel of model/passthrough.py: add(self, data,
check_exists=True) — returns the empty list, touching no storage. -/
def passThroughAddP (data : PyInst) (checkExists : Bool) : List Int :=
  []

/-- The table names of the record types transitively nested inside rt (not
including rt itself).  Stated as an inductive predicate so that no recursion
over the nested record-type tree is needed.  The spec requires nested record
types to form a tree and the naming to be collision-free, so a well-formed
type never mentions its own table name. -/
inductive MentionsName : RecordType → String → Prop where
  | base (rt : RecordType) (f : FieldSpec) (sub : RecordType)
      (hf : f ∈ rt.fields) (hty : f.ty = Ty.tRecord sub) :
      MentionsName rt (tableName sub)
  | step (rt : RecordType) (f : FieldSpec) (sub : RecordType) (n : String)
      (hf : f ∈ rt.fields) (hty : f.ty = Ty.tRecord sub) (hsub : MentionsName sub n) :
      MentionsName rt n

/-- Whether a state has a table named n. -/
def containsName (s : SqlState) (n : String) : Prop :=
  ∃ t ∈ s.tables, t.name = n

/-- Names mentioned by a field list: the table names of the record types of
its nested-record fields, and everything those types mention in turn. -/
def FieldsMention (fs : List FieldSpec) (n : String) : Prop :=
  ∃ f ∈ fs, ∃ sub, f.ty = Ty.tRecord sub ∧ (n = tableName sub ∨ MentionsName sub n)

/-- The record type of the Arithmetic scenario of the spec (section 8):
a and b are integer key fields, result is a non-key integer field. -/
def arithRT : RecordType :=
  RecordType.mk "Arithmetic"
    [FieldSpec.mk "a" Ty.tInt true false,
     FieldSpec.mk "b" Ty.tInt true false,
     FieldSpec.mk "result" Ty.tInt false false]

def arith347 : PyInst :=
  PyInst.mk arithRT [PyValue.vint 3, PyValue.vint 4, PyValue.vint 7] none

def arith34neg : PyInst :=
  PyInst.mk arithRT [PyValue.vint 3, PyValue.vint 4, PyValue.vint (-1)] none

def arith399 : PyInst :=
  PyInst.mk arithRT [PyValue.vint 3, PyValue.vint 99, PyValue.vint 102] none

def dummyInst : PyInst :=
  PyInst.mk (RecordType.mk "Dummy" []) [] none

/-- First projection of an add result, for naming concrete post-add states
without spelling them out. -/
def addResState (o : Option (SqlState × PyInst × Except String Int)) : SqlState :=
  (o.getD (sqlEmpty, dummyInst, Except.error "")).1

def addResInst (o : Option (SqlState × PyInst × Except String Int)) : PyInst :=
  (o.getD (sqlEmpty, dummyInst, Except.error "")).2.1

/-- The state after add(Arithmetic(3, 4, 7)) on a fresh adapter. -/
def c4s1 : SqlState :=
  addResState (addF 2 sqlEmpty arith347 true)

/-- The Arithmetic(3, 4, 7) instance after that add (it now carries the
memoized identifier 1). -/
def c4i1 : PyInst :=
  addResInst (addF 2 sqlEmpty arith347 true)

/-- A record type with zero key fields, for claim C2. -/
def noKeyRT : RecordType :=
  RecordType.mk "NoKey" [FieldSpec.mk "a" Ty.tInt false false]

def noKeyInst : PyInst :=
  PyInst.mk noKeyRT [PyValue.vint 7] none

/-- A state already storing a NoKey row, to exercise "regardless of any
prior inserts" in the amended claim C2. -/
def noKeyState : SqlState :=
  ⟨[⟨"nokey", [idColumn, ⟨"a", SqlColType.integer, false⟩], [⟨1, [("a", PyValue.vint 7)]⟩], 2⟩], 0⟩

/-- Nested record type and instance for claims C1 and C5. -/
def subRT : RecordType :=
  RecordType.mk "Sub" [FieldSpec.mk "x" Ty.tInt true false]

def subInst : PyInst :=
  PyInst.mk subRT [PyValue.vint 5] none

def subField : FieldSpec :=
  FieldSpec.mk "sub" (Ty.tRecord subRT) true false

def outerRT : RecordType :=
  RecordType.mk "Outer" [FieldSpec.mk "sub" (Ty.tRecord subRT) true false]

def outerInst : PyInst :=
  PyInst.mk outerRT [PyValue.vrec subInst] none

/-- A pre-existing (reflected) database for claim C1: the outer table holds
one row whose foreign-identifier cell is NULL, and the sub table was never
created, so resolving the nested instance yields absent. -/
def c1State : SqlState :=
  ⟨[⟨"outer", [idColumn, ⟨"sub_id", SqlColType.foreign "sub", true⟩],
      [⟨1, [("sub_id", PyValue.vnone)]⟩], 2⟩], 0⟩

/-- The same database but with a non-null foreign-identifier cell, for the
amended claim C1. -/
def c1StateNN : SqlState :=
  ⟨[⟨"outer", [idColumn, ⟨"sub_id", SqlColType.foreign "sub", true⟩],
      [⟨1, [("sub_id", PyValue.vint 7)]⟩], 2⟩], 0⟩

def c1wRes : SqlState × PyInst × Option Int :=
  (getRowidF 2 c1StateNN outerInst).getD (sqlEmpty, outerInst, none)

/-- Parent record type with a nested key field and a scalar field, for
claim C5. -/
def parentRT : RecordType :=
  RecordType.mk "Parent"
    [FieldSpec.mk "sub" (Ty.tRecord subRT) true false,
     FieldSpec.mk "note" Ty.tStr false false]

def parentInst : PyInst :=
  PyInst.mk parentRT [PyValue.vrec subInst, PyValue.vstr "hi"] none

def c5Res : SqlState × PyInst × Except String Int :=
  (addF 3 sqlEmpty parentInst true).getD (sqlEmpty, dummyInst, Except.error "")

/-- A record type with a field whose declared type matches no mapping rule
(for instance a Python list), for claim C6. -/
def badRT : RecordType :=
  RecordType.mk "Bad" [FieldSpec.mk "x" (Ty.tUnsupported "list") false false]

def badField : FieldSpec :=
  FieldSpec.mk "x" (Ty.tUnsupported "list") false false

def c6Res : SqlState × Except String SqlTable :=
  (requireTableF 1 sqlEmpty badRT).getD (sqlEmpty, Except.error "")

def defaultTable : SqlTable :=
  ⟨"", [], [], 1⟩

/-- A datetime field of the document-store Data scenario, for claim C10. -/
def eventField : FieldSpec :=
  FieldSpec.mk "event" Ty.tDatetime false false

/-- The state after the C4 add, named for the C3 witness. -/
def c3S1 : SqlState :=
  addResState (addF 2 sqlEmpty arith347 true)

/-- The instance after the C4 add, named for the C3 witness. -/
def c3I1 : PyInst :=
  addResInst (addF 2 sqlEmpty arith347 true)

/-- C4: the Arithmetic scenario.  On a fresh adapter, add(Arithmetic(3,4,7))
returns identifier 1; on the resulting state, exists on a distinct instance
Arithmetic(3,4,-1) (differing only in the non-key field result) is true, and
exists on Arithmetic(3,99,102) (differing in the key field b) is false. -/
theorem spec_C4 :
    (addF 2 sqlEmpty arith347 true).map (fun r => r.2.2) = some (Except.ok 1) ∧
    existsBoolF 2 c4s1 arith34neg = some true ∧
    existsBoolF 2 c4s1 arith399 = some false :=
  ⟨rfl, rfl, rfl⟩

/-- C7: get_table returns the cached table when the record type has one, and
raises ValueError("No table named: ...") when the type has never been
created.  getTable is a pure reader of the state — it returns no state, just
as the source performs no mutation — so it cannot create an entity as a side
effect. -/
theorem spec_C7 (s : SqlState) (rt : RecordType) :
    (∀ t, findTable s (tableName rt) = some t → getTable s rt = Except.ok t) ∧
    (findTable s (tableName rt) = none →
      getTable s rt = Except.error ("No table named: " ++ tableName rt)) := by
  constructor
  · intro t ht
    simp [getTable, ht]
  · intro hn
    simp [getTable, hn]

/-- Witness for C7: on the state produced by the C4 add, get_table of the
Arithmetic type returns the cached table; on the empty state it fails with
the unknown-entity error. -/
theorem spec_C7_witness :
    getTable c4s1 arithRT = Except.ok ((findTable c4s1 (tableName arithRT)).getD defaultTable) ∧
    getTable sqlEmpty arithRT = Except.error ("No table named: " ++ tableName arithRT) :=
  ⟨(spec_C7 c4s1 arithRT).1 ((findTable c4s1 (tableName arithRT)).getD defaultTable) rfl,
   (spec_C7 sqlEmpty arithRT).2 rfl⟩

/-- C8: the Naming Strategy of the source lowercases the type name before
splitting it at case boundaries, so a camel-case compound name such as
ArithmeticData comes out as the unseparated arithmeticdata, not as the
lowercase word-separated arithmetic_data the spec describes. -/
theorem spec_C8 :
    tableNameStr "ArithmeticData" = "arithmeticdata" ∧
    specCanonicalName "ArithmeticData" = "arithmetic_data" ∧
    tableNameStr "ArithmeticData" ≠ specCanonicalName "ArithmeticData" :=
  ⟨rfl, rfl, by decide⟩

/-- C9: both no-op adapters: exists is always false, and add touches no
storage (neither class holds any backend handle; the embeddings are pure)
and returns the empty result.  The model.py variant takes no checkExists
argument on add (its signature is add(self, data)); the model/passthrough.py
variant accepts both values of check_exists. -/
theorem spec_C9 (d : PyInst) (ce : Bool) :
    passThroughExistsM d ce = false ∧
    passThroughAddM d = [] ∧
    passThroughExistsP d = false ∧
    passThroughAddP d ce = [] :=
  ⟨rfl, rfl, rfl, rfl⟩

/-- C10: in the document-store adapter, a field declared as datetime hits the
date-normalization branch of _convert_value (datetime.datetime is a subclass
of datetime.date), so only year, month and day survive and two values
differing only in time of day convert to the same stored value. -/
theorem spec_C10 (f : FieldSpec)
    (y mo d h mi sec h2 mi2 sec2 : Nat) (hty : f.ty = Ty.tDatetime) :
    mongoConvertValue f (PyValue.vdatetime y mo d h mi sec) = PyValue.vdatetime y mo d 0 0 0 ∧
    mongoConvertValue f (PyValue.vdatetime y mo d h mi sec) =
      mongoConvertValue f (PyValue.vdatetime y mo d h2 mi2 sec2) := by
  simp [mongoConvertValue, hty, Ty.isEnumTy, Ty.isSubclassOfDate, dateOnlyDatetime]

/-- Witness for C10: the Data scenario timestamp 2019-06-16 12:34:56 converts
to the midnight datetime 2019-06-16 00:00:00, equal to the conversion of
2019-06-16 01:02:03. -/
theorem spec_C10_witness :
    mongoConvertValue eventField (PyValue.vdatetime 2019 6 16 12 34 56) =
      PyValue.vdatetime 2019 6 16 0 0 0 ∧
    mongoConvertValue eventField (PyValue.vdatetime 2019 6 16 12 34 56) =
      mongoConvertValue eventField (PyValue.vdatetime 2019 6 16 1 2 3) :=
  spec_C10 eventField 2019 6 16 12 34 56 1 2 3 rfl

/-- A successful resolution leaves the resolved identifier memoized on the
returned instance: either the instance already carried it, or the lookup hit
stores it (SqlModel._get_rowid assigns data._rowid before returning). -/
theorem getRowidF_some_rowid (fuel : Nat) (s : SqlState) (i : PyInst)
    (s2 : SqlState) (i2 : PyInst) (r : Int)
    (h : getRowidF fuel s i = some (s2, i2, some r)) : i2.rowid = some r := by
  cases fuel with
  | zero => exact Option.noConfusion h
  | succ n =>
    simp only [getRowidF] at h
    split at h
    next r0 hr0 =>
      simp only [Option.some.injEq, Prod.mk.injEq] at h
      obtain ⟨-, rfl, hr⟩ := h
      rw [hr0, hr]
    next hr0 =>
      split at h
      next hft => simp_all
      next tbl hft =>
        split at h
        next hbc => exact Option.noConfusion h
        next s1 vs1 clauses hbc =>
          split at h
          next hemp => simp_all
          next hemp =>
            split at h
            next hfind => simp_all
            next row hfind =>
              split at h
              next hid => simp_all
              next hid =>
                simp only [Option.some.injEq, Prod.mk.injEq] at h
                obtain ⟨-, rfl, hr⟩ := h
                simpa [PyInst.rowid] using hr

/-- A successful add leaves the returned identifier memoized on the returned
instance, whichever path produced it (already memoized, lookup hit, or
insert). -/
theorem addF_ok_rowid (fuel : Nat) (s : SqlState) (i : PyInst) (ce : Bool)
    (s2 : SqlState) (i2 : PyInst) (r : Int)
    (h : addF fuel s i ce = some (s2, i2, Except.ok r)) : i2.rowid = some r := by
  cases fuel with
  | zero => exact Option.noConfusion h
  | succ n =>
    simp only [addF] at h
    split at h
    next r0 hr0 =>
      simp only [Option.some.injEq, Prod.mk.injEq] at h
      obtain ⟨-, rfl, hr⟩ := h
      rw [hr0]
      exact congrArg some (Except.ok.inj hr).symm ▸ rfl
    next hr0 =>
      split at h
      next hlk => exact Option.noConfusion h
      next s1 i1 r1 hlk =>
        simp only [Option.some.injEq, Prod.mk.injEq] at h
        obtain ⟨-, rfl, hr⟩ := h
        have hr1 : r1 = r := Except.ok.inj hr
        subst hr1
        cases ce with
        | true =>
          simp only [if_pos] at hlk
          exact getRowidF_some_rowid (n + 1) s i s1 i1 r1 hlk
        | false =>
          simp at hlk
      next s1 i1 hlk =>
        split at h
        next hbr => exact Option.noConfusion h
        next s2a vs2 e hbr => simp_all
        next s2a vs2 row hbr =>
          split at h
          next hrq => exact Option.noConfusion h
          next s3 e hrq => simp_all
          next s3 tbl hrq =>
            split at h
            next s4 e hins => simp_all
            next s4 rid hins =>
              simp only [Option.some.injEq, Prod.mk.injEq] at h
              obtain ⟨-, rfl, hr⟩ := h
              simpa [PyInst.rowid] using congrArg some (Except.ok.inj hr)

/-- C3: after a successful add of an instance with at least one key field,
exists on the same instance is true, and a second add on the same instance
returns the identical identifier immediately: the state (including the
backend round-trip counter) and the instance come back unchanged, so no
insert and no backend access happens, at every sufficient fuel. -/
theorem spec_C3 (fuel f2 : Nat) (s : SqlState) (i : PyInst)
    (s1 : SqlState) (i1 : PyInst) (r : Int)
    (hkey : (keyfields i.rt.fields).isEmpty = false)
    (h : addF fuel s i true = some (s1, i1, Except.ok r)) :
    existsBoolF 1 s1 i1 = some true ∧
    addF (f2 + 1) s1 i1 true = some (s1, i1, Except.ok r) := by
  have hm : i1.rowid = some r := addF_ok_rowid fuel s i true s1 i1 r h
  constructor
  · simp [existsBoolF, getRowidF, hm]
  · simp [addF, hm]

/-- Witness for C3: the Arithmetic(3,4,7) add of the C4 scenario. -/
theorem spec_C3_witness :
    existsBoolF 1 c3S1 c3I1 = some true ∧
    addF 2 c3S1 c3I1 true = some (c3S1, c3I1, Except.ok 1) :=
  spec_C3 2 1 sqlEmpty arith347 c3S1 c3I1 1 rfl rfl

/-- The key-field loop builds no predicate and changes nothing when no field
is a key field. -/
theorem buildClausesAux_no_keys (resolve : SqlState → PyInst → Option (SqlState × PyInst × Option Int))
    (fs : List FieldSpec) (vs : List PyValue) (s : SqlState)
    (hk : ∀ f ∈ fs, iskeyfield f = false) :
    buildClausesAux resolve s fs vs = some (s, vs, []) := by
  induction fs generalizing vs s with
  | nil => rfl
  | cons f fs ih =>
    cases vs with
    | nil => rfl
    | cons v vs =>
      have hf : iskeyfield f = false := hk f (List.mem_cons_self f fs)
      have ht : ∀ g ∈ fs, iskeyfield g = false := fun g hg => hk g (List.mem_cons_of_mem f hg)
      simp only [buildClausesAux, hf, Bool.false_eq_true, if_false, ih vs s ht]

/-- C2 as amended: exists is false for every instance of a zero-key-field
type that does not carry a memoized identifier — so for any fresh instance,
regardless of prior inserts.  (The original claim fails for the same
instance object after add(r), which memoizes the identifier: see the
counterexample.) -/
theorem spec_C2_amended (fuel : Nat) (s : SqlState) (i : PyInst)
    (h1 : (keyfields i.rt.fields).isEmpty = true)
    (h2 : i.rowid = none) :
    existsBoolF (fuel + 1) s i = some false := by
  have hall : ∀ f ∈ i.rt.fields, iskeyfield f = false := by
    intro f hf
    have : keyfields i.rt.fields = [] := List.isEmpty_iff.mp h1
    by_contra hcon
    have hkey : iskeyfield f = true := Bool.not_eq_false _ |>.mp hcon
    have : f ∈ keyfields i.rt.fields := List.mem_filter.mpr ⟨hf, hkey⟩
    simp_all
  simp only [existsBoolF, getRowidF, h2]
  cases hft : findTable s (tableName i.rt) with
  | none => simp [hft]
  | some tbl =>
    simp [hft, buildClausesAux_no_keys (getRowidF fuel) i.rt.fields i.values s hall]

/-- Counterexample to C2 as stated: NoKey declares zero key fields, yet after
add(r) the very same instance object carries the memoized identifier, and
exists(r) returns true, not false. -/
theorem spec_C2_cex :
    (addF 2 sqlEmpty noKeyInst true).bind (fun r => existsBoolF 1 r.1 r.2.1) = some true :=
  rfl

/-- Witness for the amended C2: a fresh NoKey instance against a database
that already stores a NoKey row with the same field values. -/
theorem spec_C2_amended_witness :
    (keyfields noKeyInst.rt.fields).isEmpty = true ∧
    existsBoolF 1 noKeyState noKeyInst = some false :=
  ⟨rfl, spec_C2_amended 0 noKeyState noKeyInst rfl rfl⟩

theorem PyValue.isNone_iff (v : PyValue) : v.isNone = true ↔ v = PyValue.vnone := by
  cases v <;> simp [PyValue.isNone]

/-- C1 as amended: the failed nested resolution does not short-circuit; the
source builds an IS NULL predicate on the foreign-identifier column
(table.c[name + "_id"] == None) and still runs the lookup.  Resolution of
the outer instance is absent whenever no stored row of its table has a NULL
cell in that column — in particular on any database populated only through
add, which always stores the identifier of the nested record there.  The
hypothesis hcl says the key-field loop produced the null predicate on column
col (which is what a nested key field whose resolution came back absent
contributes); hrows says no stored row is NULL at col. -/
theorem spec_C1_amended (fuel : Nat) (s : SqlState) (i : PyInst) (col : String)
    (hmemo : i.rowid = none)
    (hcl : ∃ s1 vs1 cs, buildClausesAux (getRowidF fuel) s i.rt.fields i.values = some (s1, vs1, cs)
      ∧ (col, PyValue.vnone) ∈ cs)
    (hrows : ∀ tbl, findTable s (tableName i.rt) = some tbl →
      ∀ row ∈ tbl.rows, rowGet row col ≠ PyValue.vnone) :
    ∀ s2 i2 r, getRowidF (fuel + 1) s i = some (s2, i2, r) → r = none := by
  intro s2 i2 r h
  obtain ⟨s1, vs1, cs, hbc, hmem⟩ := hcl
  simp only [getRowidF, hmemo] at h
  cases hft : findTable s (tableName i.rt) with
  | none =>
    simp only [hft, Option.some.injEq, Prod.mk.injEq] at h
    exact h.2.2.symm
  | some tbl =>
    simp only [hft, hbc] at h
    have hcs : cs.isEmpty = false := by
      cases cs with
      | nil => exact absurd hmem (List.not_mem_nil _)
      | cons c cs2 => rfl
    rw [hcs] at h
    simp only [Bool.false_eq_true, if_false] at h
    have hnone : tbl.rows.find? (fun row => cs.all (fun c => evalClause tbl row c)) = none := by
      apply List.find?_eq_none.mpr
      intro row hrow
      intro hall
      have hev : evalClause tbl row (col, PyValue.vnone) = true :=
        List.all_eq_true.mp hall _ hmem
      have : (rowGet row col).isNone = true := by
        simpa [evalClause, PyValue.isNone] using hev
      exact hrows tbl hft row hrow ((PyValue.isNone_iff _).mp this)
    rw [hnone] at h
    simp only [Option.some.injEq, Prod.mk.injEq] at h
    exact h.2.2.symm

/-- Counterexample to C1 as stated: the reflected database c1State stores an
outer row whose foreign-identifier cell is NULL, and the nested Sub table
does not exist, so resolving the nested instance yields absent.  Resolution
of the outer instance does not return absent: the IS NULL predicate matches
the stored row and the lookup succeeds with identifier 1. -/
theorem spec_C1_cex :
    (getRowidF 2 c1State outerInst).map (fun r => r.2.2) = some (some 1) :=
  rfl

/-- Witness for the amended C1: the same lookup against a database whose only
outer row carries the non-null foreign identifier 7 resolves to absent. -/
theorem spec_C1_amended_witness : c1wRes.2.2 = none :=
  spec_C1_amended 1 c1StateNN outerInst "sub_id" rfl
    ⟨c1StateNN, outerInst.values, [("sub_id", PyValue.vnone)], rfl, List.Mem.head _⟩
    (by
      intro tbl htbl row hrow
      have h2 : (⟨"outer", [idColumn, ⟨"sub_id", SqlColType.foreign "sub", true⟩],
          [⟨1, [("sub_id", PyValue.vint 7)]⟩], 2⟩ : SqlTable) = tbl := Option.some.inj htbl
      subst h2
      have : row = ⟨1, [("sub_id", PyValue.vint 7)]⟩ := by
        cases hrow with
        | head => rfl
        | tail _ h => exact absurd h (List.not_mem_nil _)
      subst this
      intro hc
      exact PyValue.noConfusion hc)
    c1wRes.1 c1wRes.2.1 c1wRes.2.2 rfl

/-- State analysis of one column creation: a scalar column leaves the state
untouched; only a nested-record column can change it, through the recursive
table requirement on the nested type. -/
theorem createColumnAux_cases (require : SqlState → RecordType → Option (SqlState × Except String SqlTable))
    (s : SqlState) (f : FieldSpec) (s1 : SqlState) (res : Except String SqlColumn)
    (h : createColumnAux require s f = some (s1, res)) :
    s1 = s ∨ ∃ sub subres, f.ty = Ty.tRecord sub ∧ require s sub = some (s1, subres) := by
  cases hty : f.ty <;> simp only [createColumnAux, hty] at h
  case tRecord sub =>
    cases hr : require s sub with
    | none => rw [hr] at h; exact Option.noConfusion h
    | some p =>
      obtain ⟨sa, sres⟩ := p
      right
      refine ⟨sub, sres, rfl, ?_⟩
      cases sres <;> rw [hr] at h <;>
        simp only [Option.some.injEq, Prod.mk.injEq] at h <;>
        rw [hr, h.1]
  all_goals
    first
    | (left; split at h <;> simp only [Option.some.injEq, Prod.mk.injEq] at h <;> exact h.1.symm)
    | (left; simp only [Option.some.injEq, Prod.mk.injEq] at h; exact h.1.symm)

theorem fieldsMention_mentions (rt : RecordType) (n : String)
    (h : FieldsMention rt.fields n) : MentionsName rt n := by
  obtain ⟨f, hf, sub, hty, hcase⟩ := h
  cases hcase with
  | inl h2 => exact h2 ▸ MentionsName.base rt f sub hf hty
  | inr h2 => exact MentionsName.step rt f sub n hf hty h2

theorem fieldsMention_cons_tail (f : FieldSpec) (fs : List FieldSpec) (n : String)
    (h : FieldsMention fs n) : FieldsMention (f :: fs) n := by
  obtain ⟨g, hg, sub, hty, hcase⟩ := h
  exact ⟨g, List.mem_cons_of_mem f hg, sub, hty, hcase⟩

/-- Every table name present after the column loop was already present before
it or belongs to a record type nested in the processed fields: the loop
itself registers no table, only its recursive table requirements do. -/
theorem names_createColumnsAux
    (require : SqlState → RecordType → Option (SqlState × Except String SqlTable))
    (hreq : ∀ s rt s2 res, require s rt = some (s2, res) →
      ∀ n, containsName s2 n → containsName s n ∨ n = tableName rt ∨ MentionsName rt n) :
    ∀ fs s s2 res, createColumnsAux require s fs = some (s2, res) →
    ∀ n, containsName s2 n → containsName s n ∨ FieldsMention fs n := by
  intro fs
  induction fs with
  | nil =>
    intro s s2 res h n hc
    simp only [createColumnsAux, Option.some.injEq, Prod.mk.injEq] at h
    exact Or.inl (h.1 ▸ hc)
  | cons f fs ih =>
    intro s s2 res h n hc
    simp only [createColumnsAux] at h
    cases hcc : createColumnAux require s f with
    | none => rw [hcc] at h; exact Option.noConfusion h
    | some p =>
      obtain ⟨s1, colres⟩ := p
      have hstep : containsName s1 n → containsName s n ∨ FieldsMention (f :: fs) n := by
        intro hc1
        cases createColumnAux_cases require s f s1 colres hcc with
        | inl he => exact Or.inl (he ▸ hc1)
        | inr he =>
          obtain ⟨sub, subres, hty, hr⟩ := he
          cases hreq s sub s1 subres hr n hc1 with
          | inl h2 => exact Or.inl h2
          | inr h2 =>
            refine Or.inr ⟨f, List.mem_cons_self f fs, sub, hty, ?_⟩
            cases h2 with
            | inl h3 => exact Or.inl h3
            | inr h3 => exact Or.inr h3
      cases colres with
      | error e =>
        simp only [hcc, Option.some.injEq, Prod.mk.injEq] at h
        exact hstep (h.1 ▸ hc)
      | ok col =>
        simp only [hcc] at h
        cases hcs : createColumnsAux require s1 fs with
        | none => rw [hcs] at h; exact Option.noConfusion h
        | some q =>
          obtain ⟨s2a, res2⟩ := q
          have htail : containsName s2a n → containsName s1 n ∨ FieldsMention fs n :=
            fun hx => ih s1 s2a res2 hcs n hx
          have hs2 : s2 = s2a := by
            cases res2 <;> simp only [hcs, Option.some.injEq, Prod.mk.injEq] at h <;> exact h.1.symm
          cases htail (hs2 ▸ hc) with
          | inl h2 =>
            cases hstep h2 with
            | inl h3 => exact Or.inl h3
            | inr h3 => exact Or.inr h3
          | inr h2 => exact Or.inr (fieldsMention_cons_tail f fs n h2)

theorem containsName_append (l : List SqlTable) (t : SqlTable) (q : Nat) (n : String)
    (h : containsName ⟨l ++ [t], q⟩ n) : containsName ⟨l, q⟩ n ∨ n = t.name := by
  obtain ⟨t0, ht0, hn⟩ := h
  rcases List.mem_append.mp ht0 with h1 | h1
  · exact Or.inl ⟨t0, h1, hn⟩
  · rcases List.mem_singleton.mp h1 with rfl
    exact Or.inr hn.symm

/-- Every table name present after a table requirement was already present
before it, or is the required type itself or a type nested inside it. -/
theorem names_requireTableF :
    ∀ fuel s rt s2 res, requireTableF fuel s rt = some (s2, res) →
    ∀ n, containsName s2 n → containsName s n ∨ n = tableName rt ∨ MentionsName rt n := by
  intro fuel
  induction fuel with
  | zero => intro s rt s2 res h; exact Option.noConfusion h
  | succ m ih =>
    intro s rt s2 res h n hc
    simp only [requireTableF] at h
    split at h
    next t hft =>
      simp only [Option.some.injEq, Prod.mk.injEq] at h
      exact Or.inl (h.1 ▸ hc)
    next hft =>
      simp only [createTableAux] at h
      split at h
      next hcca => exact Option.noConfusion h
      next s1 e hcca =>
        simp only [Option.some.injEq, Prod.mk.injEq] at h
        cases names_createColumnsAux (requireTableF m) ih rt.fields s s1 (Except.error e) hcca n (h.1 ▸ hc) with
        | inl h2 => exact Or.inl h2
        | inr h2 => exact Or.inr (Or.inr (fieldsMention_mentions rt n h2))
      next s1 cols hcca =>
        split at h
        next t0 hdup =>
          simp only [Option.some.injEq, Prod.mk.injEq] at h
          cases names_createColumnsAux (requireTableF m) ih rt.fields s s1 (Except.ok cols) hcca n (h.1 ▸ hc) with
          | inl h2 => exact Or.inl h2
          | inr h2 => exact Or.inr (Or.inr (fieldsMention_mentions rt n h2))
        next hdup =>
          simp only [Option.some.injEq, Prod.mk.injEq] at h
          have hc2 : containsName ⟨s1.tables ++ [⟨tableName rt, idColumn :: cols, [], 1⟩], s1.queryCount + 1⟩ n := by
            obtain ⟨hs, -⟩ := h
            rw [← hs] at hc
            exact hc
          cases containsName_append s1.tables _ (s1.queryCount + 1) n hc2 with
          | inr h2 => exact Or.inr (Or.inl h2)
          | inl h2 =>
            have hc1 : containsName s1 n := by
              obtain ⟨t0, ht0, hn⟩ := h2
              exact ⟨t0, ht0, hn⟩
            cases names_createColumnsAux (requireTableF m) ih rt.fields s s1 (Except.ok cols) hcca n hc1 with
            | inl h3 => exact Or.inl h3
            | inr h3 => exact Or.inr (Or.inr (fieldsMention_mentions rt n h3))

/-- When the table requirement fails, the table of the required type itself
is never among the newly created names (the failing type is registered only
after all its columns succeed). -/
theorem names_requireTableF_err (fuel : Nat) (s : SqlState) (rt : RecordType)
    (s2 : SqlState) (e : String)
    (h : requireTableF (fuel + 1) s rt = some (s2, Except.error e)) :
    ∀ n, containsName s2 n → containsName s n ∨ MentionsName rt n := by
  intro n hc
  simp only [requireTableF] at h
  split at h
  next t hft =>
    simp only [Option.some.injEq, Prod.mk.injEq] at h
    exact Except.noConfusion h.2
  next hft =>
    simp only [createTableAux] at h
    split at h
    next hcca => exact Option.noConfusion h
    next s1 e2 hcca =>
      simp only [Option.some.injEq, Prod.mk.injEq] at h
      cases names_createColumnsAux (requireTableF fuel) (names_requireTableF fuel) rt.fields s s1
          (Except.error e2) hcca n (h.1 ▸ hc) with
      | inl h2 => exact Or.inl h2
      | inr h2 => exact Or.inr (fieldsMention_mentions rt n h2)
    next s1 cols hcca =>
      split at h
      next t0 hdup =>
        simp only [Option.some.injEq, Prod.mk.injEq] at h
        cases names_createColumnsAux (requireTableF fuel) (names_requireTableF fuel) rt.fields s s1
            (Except.ok cols) hcca n (h.1 ▸ hc) with
        | inl h2 => exact Or.inl h2
        | inr h2 => exact Or.inr (fieldsMention_mentions rt n h2)
      next hdup =>
        simp only [Option.some.injEq, Prod.mk.injEq] at h
        exact Except.noConfusion h.2

/-- A field whose declared type matches no mapping rule makes the column loop
fail with the unsupported-type ValueError (whichever field fails first). -/
theorem createColumnsAux_error
    (require : SqlState → RecordType → Option (SqlState × Except String SqlTable)) :
    ∀ fs s s2 res, (∃ f ∈ fs, ∃ tn, f.ty = Ty.tUnsupported tn) →
    createColumnsAux require s fs = some (s2, res) → ∃ e2, res = Except.error e2 := by
  intro fs
  induction fs with
  | nil =>
    intro s s2 res hex h
    obtain ⟨f, hf, -⟩ := hex
    exact absurd hf (List.not_mem_nil f)
  | cons f0 fs ih =>
    intro s s2 res hex h
    obtain ⟨f, hfmem, tn, hty⟩ := hex
    simp only [createColumnsAux] at h
    rcases List.mem_cons.mp hfmem with rfl | htail
    · have hcc : createColumnAux require s f = some (s, Except.error ("Cannot convert " ++ f.name ++ " to SQL column")) := by
        simp [createColumnAux, hty, Ty.isStr, typeToSqlType]
      simp only [hcc, Option.some.injEq, Prod.mk.injEq] at h
      exact ⟨_, h.2.symm⟩
    · cases hcc : createColumnAux require s f0 with
      | none => rw [hcc] at h; exact Option.noConfusion h
      | some p =>
        obtain ⟨s1, colres⟩ := p
        cases colres with
        | error e2 =>
          simp only [hcc, Option.some.injEq, Prod.mk.injEq] at h
          exact ⟨e2, h.2.symm⟩
        | ok col =>
          simp only [hcc] at h
          cases hcs : createColumnsAux require s1 fs with
          | none => rw [hcs] at h; exact Option.noConfusion h
          | some q =>
            obtain ⟨s2a, res2⟩ := q
            obtain ⟨e2, he2⟩ := ih s1 s2a res2 ⟨f, htail, tn, hty⟩ hcs
            subst he2
            simp only [hcs, Option.some.injEq, Prod.mk.injEq] at h
            exact ⟨e2, h.2.symm⟩

theorem findTable_none_iff (s : SqlState) (n : String) :
    findTable s n = none ↔ ¬ containsName s n := by
  unfold findTable containsName
  rw [List.find?_eq_none]
  constructor
  · rintro h ⟨t, ht, rfl⟩
    exact h t ht (beq_self_eq_true _)
  · intro h t ht hbeq
    exact h ⟨t, ht, eq_of_beq hbeq⟩

theorem mentions_no_record (rt : RecordType)
    (hno : ∀ f ∈ rt.fields, ∀ sub, f.ty ≠ Ty.tRecord sub) (n : String) :
    ¬ MentionsName rt n := by
  intro h
  cases h <;> solve_by_elim [hno]

/-- C6: a record type with a field whose declared type matches none of the
mapping rules: creating its schema fails with the unsupported-type error, and
the type stays absent from the cached metadata (its table is registered only
after all columns succeed).  The hypotheses ask that the type was not already
cached (the claim is about creating the schema) and that no nested type of rt
reuses the very table name of rt (guaranteed by the spec invariants: nested
types form a tree and naming is collision-free). -/
theorem spec_C6 (fuel : Nat) (s : SqlState) (rt : RecordType) (f : FieldSpec) (tn : String)
    (hf : f ∈ rt.fields) (hty : f.ty = Ty.tUnsupported tn)
    (habs : findTable s (tableName rt) = none)
    (hself : ¬ MentionsName rt (tableName rt)) :
    ∀ s2 res, requireTableF (fuel + 1) s rt = some (s2, res) →
    (∃ e, res = Except.error e) ∧ findTable s2 (tableName rt) = none := by
  intro s2 res h
  simp only [requireTableF, habs] at h
  simp only [createTableAux] at h
  split at h
  next hcca => exact Option.noConfusion h
  next s1 e hcca =>
    simp only [Option.some.injEq, Prod.mk.injEq] at h
    obtain ⟨hs, hres⟩ := h
    refine ⟨⟨e, hres.symm⟩, ?_⟩
    rw [← hs]
    apply (findTable_none_iff s1 (tableName rt)).mpr
    intro hc
    cases names_createColumnsAux (requireTableF fuel) (names_requireTableF fuel) rt.fields s s1
        (Except.error e) hcca (tableName rt) hc with
    | inl h2 => exact (findTable_none_iff s (tableName rt)).mp habs h2
    | inr h2 => exact hself (fieldsMention_mentions rt (tableName rt) h2)
  next s1 cols hcca =>
    obtain ⟨e2, he2⟩ := createColumnsAux_error (requireTableF fuel) rt.fields s s1
      (Except.ok cols) ⟨f, hf, tn, hty⟩ hcca
    exact Except.noConfusion he2

/-- Witness for C6: the Bad type whose field x is declared as a Python list. -/
theorem spec_C6_witness :
    (∃ e, c6Res.2 = Except.error e) ∧ findTable c6Res.1 (tableName badRT) = none :=
  spec_C6 0 sqlEmpty badRT badField "list" (List.Mem.head _) rfl rfl
    (mentions_no_record badRT
      (by
        intro f hf sub
        rcases List.mem_singleton.mp hf with rfl
        simp [badField, FieldSpec.ty])
      (tableName badRT))
    c6Res.1 c6Res.2 rfl

/-- A metadata hit returns a table carrying the looked-up name. -/
theorem findTable_name (s : SqlState) (n : String) (t : SqlTable)
    (h : findTable s n = some t) : t.name = n := by
  unfold findTable at h
  exact eq_of_beq (@List.find?_some SqlTable (fun t0 => t0.name == n) t s.tables h)

theorem find?_append_none {α : Type} (p : α → Bool) (l1 l2 : List α)
    (h : l1.find? p = none) : (l1 ++ l2).find? p = l2.find? p := by
  induction l1 with
  | nil => rfl
  | cons a l ih =>
    rw [List.cons_append]
    cases hpa : p a with
    | true => simp [List.find?_cons, hpa] at h
    | false =>
      simp only [List.find?_cons, hpa] at h ⊢
      exact ih h

/-- A successful table requirement returns a table named after the record
type, and that table is cached in the resulting metadata. -/
theorem requireTableF_ok (fuel : Nat) (s : SqlState) (rt : RecordType)
    (s2 : SqlState) (t : SqlTable)
    (h : requireTableF fuel s rt = some (s2, Except.ok t)) :
    t.name = tableName rt ∧ findTable s2 (tableName rt) = some t := by
  cases fuel with
  | zero => exact Option.noConfusion h
  | succ m =>
    simp only [requireTableF] at h
    split at h
    next t0 hft =>
      simp only [Option.some.injEq, Prod.mk.injEq] at h
      obtain ⟨hs, ht⟩ := h
      have ht0 : t0 = t := Except.ok.inj ht
      subst ht0
      exact ⟨findTable_name s (tableName rt) t0 hft, hs ▸ hft⟩
    next hft =>
      simp only [createTableAux] at h
      split at h
      next hcca => exact Option.noConfusion h
      next s1 e hcca =>
        simp only [Option.some.injEq, Prod.mk.injEq] at h
        exact Except.noConfusion h.2
      next s1 cols hcca =>
        split at h
        next t0 hdup =>
          simp only [Option.some.injEq, Prod.mk.injEq] at h
          exact Except.noConfusion h.2
        next hdup =>
          simp only [Option.some.injEq, Prod.mk.injEq] at h
          obtain ⟨hs, ht⟩ := h
          have ht2 : (⟨tableName rt, idColumn :: cols, [], 1⟩ : SqlTable) = t := Except.ok.inj ht
          subst ht2
          refine ⟨rfl, ?_⟩
          rw [← hs]
          unfold findTable at hdup ⊢
          rw [find?_append_none _ s1.tables _ hdup]
          simp [List.find?_cons]

theorem setTable_find (l : List SqlTable) (n : String) (t2 : SqlTable)
    (h : (l.find? (fun t => t.name == n)).isSome) (hn : t2.name = n) :
    (setTable l n t2).find? (fun t => t.name == n) = some t2 := by
  induction l with
  | nil => simp [List.find?] at h
  | cons t0 ts ih =>
    cases hb : (t0.name == n) with
    | true =>
      simp only [setTable, hb, if_true]
      simp [List.find?_cons, hn]
    | false =>
      simp only [setTable, hb, Bool.false_eq_true, if_false]
      simp only [List.find?_cons, hb]
      apply ih
      simp only [List.find?_cons, hb] at h
      exact h

/-- A successful INSERT appends exactly the assembled row, under the next
primary identifier of the target table. -/
theorem insertRow_ok (s : SqlState) (tn : String) (row : List (String × PyValue))
    (s2 : SqlState) (rid : Int)
    (h : insertRow s tn row = (s2, Except.ok rid)) :
    ∃ t, findTable s tn = some t ∧ rid = t.nextId ∧
      findTable s2 tn = some ⟨t.name, t.columns, t.rows ++ [⟨t.nextId, row⟩], t.nextId + 1⟩ := by
  unfold insertRow at h
  cases hft : findTable s tn with
  | none =>
    simp only [hft, Prod.mk.injEq] at h
    exact Except.noConfusion h.2
  | some t =>
    simp only [hft] at h
    cases hall : (row.all fun cell => t.columns.any fun col => col.name == cell.1) with
    | false =>
      rw [if_neg (by rw [hall]; exact Bool.false_ne_true)] at h
      simp only [Prod.mk.injEq] at h
      exact Except.noConfusion h.2
    | true =>
      rw [if_pos hall] at h
      simp only [Prod.mk.injEq] at h
      obtain ⟨hs, hr⟩ := h
      refine ⟨t, rfl, (Except.ok.inj hr).symm, ?_⟩
      rw [← hs]
      unfold findTable
      dsimp only
      exact setTable_find s.tables tn
        ⟨t.name, t.columns, t.rows ++ [⟨t.nextId, row⟩], t.nextId + 1⟩
        (by unfold findTable at hft; rw [hft]; rfl)
        (show SqlTable.name ⟨t.name, t.columns, t.rows ++ [⟨t.nextId, row⟩], t.nextId + 1⟩ = tn from
          findTable_name s tn t hft)

/-- The row loop of add: a field whose value is a nested record contributes
the identifier of the recursive add of that record, stored under the
foreign-identifier column name, and the updated nested instance ends up at
the same position of the updated value list. -/
theorem buildRowAux_nested
    (addRec : SqlState → PyInst → Bool → Option (SqlState × PyInst × Except String Int)) :
    ∀ fs vs s ce k f sub s2 vs2 row,
    List.get? fs k = some f → List.get? vs k = some (PyValue.vrec sub) →
    buildRowAux addRec s fs vs ce = some (s2, vs2, Except.ok row) →
    ∃ sa sb sub1 nid,
      addRec sa sub ce = some (sb, sub1, Except.ok nid) ∧
      List.get? vs2 k = some (PyValue.vrec sub1) ∧
      (f.name ++ "_id", PyValue.vint nid) ∈ row := by
  intro fs
  induction fs with
  | nil =>
    intro vs s ce k f sub s2 vs2 row hf hv h
    simp at hf
  | cons f0 fs ih =>
    intro vs s ce k f sub s2 vs2 row hf hv h
    cases vs with
    | nil => simp at hv
    | cons v vs =>
      cases k with
      | zero =>
        have hf0 : f0 = f := Option.some.inj hf
        have hv0 : v = PyValue.vrec sub := Option.some.inj hv
        subst hf0
        subst hv0
        simp only [buildRowAux, asRec] at h
        cases har : addRec s sub ce with
        | none => rw [har] at h; exact Option.noConfusion h
        | some p =>
          obtain ⟨sa2, sub1, subres⟩ := p
          cases subres with
          | error e =>
            simp only [har, Option.some.injEq, Prod.mk.injEq] at h
            exact Except.noConfusion h.2.2
          | ok nid =>
            simp only [har] at h
            cases hbr : buildRowAux addRec sa2 fs vs ce with
            | none => rw [hbr] at h; exact Option.noConfusion h
            | some q =>
              obtain ⟨s2b, vs2b, res2⟩ := q
              cases res2 with
              | error e =>
                simp only [hbr, Option.some.injEq, Prod.mk.injEq] at h
                exact Except.noConfusion h.2.2
              | ok row2 =>
                simp only [hbr, Option.some.injEq, Prod.mk.injEq] at h
                obtain ⟨hs, hvs, hrow⟩ := h
                refine ⟨s, sa2, sub1, nid, har, ?_, ?_⟩
                · rw [← hvs]
                  rfl
                · rw [← Except.ok.inj hrow]
                  exact List.mem_cons_self _ _
      | succ k2 =>
        have hf2 : List.get? fs k2 = some f := hf
        have hv2 : List.get? vs k2 = some (PyValue.vrec sub) := hv
        simp only [buildRowAux] at h
        cases hvr : asRec v with
        | some sub0 =>
          simp only [hvr] at h
          cases har : addRec s sub0 ce with
          | none => rw [har] at h; exact Option.noConfusion h
          | some p =>
            obtain ⟨sa2, sub1, subres⟩ := p
            cases subres with
            | error e =>
              simp only [har, Option.some.injEq, Prod.mk.injEq] at h
              exact Except.noConfusion h.2.2
            | ok nid =>
              simp only [har] at h
              cases hbr : buildRowAux addRec sa2 fs vs ce with
              | none => rw [hbr] at h; exact Option.noConfusion h
              | some q =>
                obtain ⟨s2b, vs2b, res2⟩ := q
                cases res2 with
                | error e =>
                  simp only [hbr, Option.some.injEq, Prod.mk.injEq] at h
                  exact Except.noConfusion h.2.2
                | ok row2 =>
                  simp only [hbr, Option.some.injEq, Prod.mk.injEq] at h
                  obtain ⟨hs, hvs, hrow⟩ := h
                  obtain ⟨sa, sb, sub2, nid2, ha2, hg2, hm2⟩ :=
                    ih vs sa2 ce k2 f sub s2b vs2b row2 hf2 hv2 hbr
                  refine ⟨sa, sb, sub2, nid2, ha2, ?_, ?_⟩
                  · rw [← hvs]
                    exact hg2
                  · rw [← Except.ok.inj hrow]
                    exact List.mem_cons_of_mem _ hm2
        | none =>
          simp only [hvr] at h
          cases hbr : buildRowAux addRec s fs vs ce with
          | none => rw [hbr] at h; exact Option.noConfusion h
          | some q =>
            obtain ⟨s2b, vs2b, res2⟩ := q
            cases res2 with
            | error e =>
              simp only [hbr, Option.some.injEq, Prod.mk.injEq] at h
              exact Except.noConfusion h.2.2
            | ok row2 =>
              simp only [hbr, Option.some.injEq, Prod.mk.injEq] at h
              obtain ⟨hs, hvs, hrow⟩ := h
              obtain ⟨sa, sb, sub2, nid2, ha2, hg2, hm2⟩ :=
                ih vs s ce k2 f sub s2b vs2b row2 hf2 hv2 hbr
              refine ⟨sa, sb, sub2, nid2, ha2, ?_, ?_⟩
              · rw [← hvs]
                exact hg2
              · rw [← Except.ok.inj hrow]
                exact List.mem_cons_of_mem _ hm2

/-- C5: on the insert path of add (no memoized identifier, and the optional
lookup found nothing), every field whose runtime value is a nested record is
first recursively added with the same check_exists policy (the inner addF
application below, at some intermediate state), and the row stored for the
parent holds, under the foreign-identifier column name of that field, exactly
the identifier returned for (and memoized on) the nested record. -/
theorem spec_C5 (fuel : Nat) (s s1 : SqlState) (i i1 : PyInst) (ce : Bool)
    (s2 : SqlState) (i2 : PyInst) (r : Int) (k : Nat) (f : FieldSpec) (sub : PyInst)
    (hmemo : i.rowid = none)
    (hpath : (if ce then getRowidF (fuel + 1) s i else some (s, i, none)) = some (s1, i1, none))
    (hf : List.get? i1.rt.fields k = some f)
    (hv : List.get? i1.values k = some (PyValue.vrec sub))
    (hadd : addF (fuel + 1) s i ce = some (s2, i2, Except.ok r)) :
    ∃ sub1 nid sa sb,
      List.get? i2.values k = some (PyValue.vrec sub1) ∧
      sub1.rowid = some nid ∧
      addF fuel sa sub ce = some (sb, sub1, Except.ok nid) ∧
      ∃ row ∈ tableRows s2 (tableName i1.rt),
        row.id = r ∧ (f.name ++ "_id", PyValue.vint nid) ∈ row.cells := by
  simp only [addF, hmemo] at hadd
  simp only [hpath] at hadd
  cases hbr : buildRowAux (addF fuel) s1 i1.rt.fields i1.values ce with
  | none => rw [hbr] at hadd; exact Option.noConfusion hadd
  | some q =>
    obtain ⟨s2a, vs2, rowres⟩ := q
    cases rowres with
    | error e =>
      simp only [hbr, Option.some.injEq, Prod.mk.injEq] at hadd
      exact Except.noConfusion hadd.2.2
    | ok row =>
      simp only [hbr] at hadd
      cases hrq : requireTableF (fuel + 1) s2a i1.rt with
      | none => rw [hrq] at hadd; exact Option.noConfusion hadd
      | some p =>
        obtain ⟨s3, tres⟩ := p
        cases tres with
        | error e =>
          simp only [hrq, Option.some.injEq, Prod.mk.injEq] at hadd
          exact Except.noConfusion hadd.2.2
        | ok tbl =>
          simp only [hrq] at hadd
          obtain ⟨htn, hft3⟩ := requireTableF_ok (fuel + 1) s2a i1.rt s3 tbl hrq
          cases hins : insertRow s3 tbl.name row with
          | mk s4 insres =>
            cases insres with
            | error e =>
              simp only [hins, Option.some.injEq, Prod.mk.injEq] at hadd
              exact Except.noConfusion hadd.2.2
            | ok rid =>
              simp only [hins, Option.some.injEq, Prod.mk.injEq] at hadd
              obtain ⟨hs4, hi2, hr⟩ := hadd
              have hr2 : rid = r := Except.ok.inj hr
              subst hr2
              obtain ⟨sa, sb, sub1, nid, haddrec, hg, hmem⟩ :=
                buildRowAux_nested (addF fuel) i1.rt.fields i1.values s1 ce k f sub s2a vs2 row hf hv hbr
              obtain ⟨t, hftt, hridt, hft4⟩ := insertRow_ok s3 tbl.name row s4 rid hins
              have hteq : t = tbl := by
                rw [htn, hft3] at hftt
                exact (Option.some.inj hftt).symm
              subst hteq
              refine ⟨sub1, nid, sa, sb, ?_,
                addF_ok_rowid fuel sa sub ce sb sub1 nid haddrec, haddrec, ?_⟩
              · rw [← hi2]
                exact hg
              · refine ⟨⟨t.nextId, row⟩, ?_, hridt.symm, hmem⟩
                rw [← hs4]
                unfold tableRows
                rw [← htn, hft4]
                exact List.mem_append_right _ (List.mem_singleton.mpr rfl)


/-- Witness for C5: adding a fresh Parent whose key field holds a fresh Sub
on an empty adapter; the stored parent row carries sub_id = 1, the identifier
assigned to the Sub row. -/
theorem spec_C5_witness :
    ∃ sub1 nid sa sb,
      List.get? c5Res.2.1.values 0 = some (PyValue.vrec sub1) ∧
      sub1.rowid = some nid ∧
      addF 2 sa subInst true = some (sb, sub1, Except.ok nid) ∧
      ∃ row ∈ tableRows c5Res.1 (tableName parentInst.rt),
        row.id = 1 ∧ (subField.name ++ "_id", PyValue.vint nid) ∈ row.cells :=
  spec_C5 2 sqlEmpty sqlEmpty parentInst parentInst true c5Res.1 c5Res.2.1 1 0
    subField subInst rfl rfl rfl rfl rfl

end Pipeline
